import Mathlib

/-!
# Verification of the sales-dashboard pipeline (src/main.py)

Shallow embedding of the aggregation / filter / metrics / stocking-heuristic
pipeline of `src/main.py`.  A `SalesRecord` is one CSV row after ingestion
(the derived `month` column already present).  Numeric columns are embedded
exactly: `net_quantity` as an integer, `total_sales` as a rational number.

pandas semantics embedded here:
* `groupby(key)[col].sum()` sorts the distinct group keys ascending
  (`sort=True` is the pandas default) and sums the column per group
  (`sumBy`);
* `.nlargest(n)` returns the `n` largest values sorted descending, ties
  resolved by position in the (key-sorted) series (`keep='first'`), i.e. a
  stable descending sort followed by `take n` (`topN`);
* boolean-mask filtering keeps the original row order (`filtered_data`,
  `applyFilters`).
-/

/-- One row of the uploaded sales table, after ingestion derived the
`month` column (format YYYY-MM) from `day`.  `day` is a day ordinal. -/
structure SalesRecord where
  day : Nat
  month : String
  product_title : String
  product_type : String
  product_vendor : String
  net_quantity : Int
  total_sales : Rat
deriving DecidableEq

/-- Lexicographic (code-point) comparison of char lists: the order pandas
uses when sorting string group keys. -/
def charListLt : List Char → List Char → Bool
  | [], [] => false
  | [], _ :: _ => true
  | _ :: _, [] => false
  | a :: as, b :: bs => if a < b then true else if b < a then false else charListLt as bs

/-- Strict lexicographic order on strings (by code points). -/
def strLt (a b : String) : Bool := charListLt a.data b.data

/-- Reflexive lexicographic order on strings. -/
def strLe (a b : String) : Bool := ! strLt b a

/-- Boolean `≤` on naturals, used to sort the `day` group keys. -/
def natLeB (a b : Nat) : Bool := decide (a ≤ b)

/-- Descending-by-value comparison on (key, value) pairs: `p` comes no
later than `q` when `q`'s value is at most `p`'s. -/
def valGe {α : Type} (p q : α × Rat) : Bool := decide (q.2 ≤ p.2)

/-- Insert `a` into `l` in front of the first element `b` with `le a b`.
Used by `sortAsc`; inserting in front of equal elements makes the sort
stable for elements arriving earlier. -/
def insertAsc {α : Type} (le : α → α → Bool) (a : α) : List α → List α
  | [] => [a]
  | b :: l => if le a b then a :: b :: l else b :: insertAsc le a l

/-- Stable insertion sort with respect to the boolean relation `le`. -/
def sortAsc {α : Type} (le : α → α → Bool) : List α → List α
  | [] => []
  | a :: l => insertAsc le a (sortAsc le l)

/-- `table.groupby(key)[val].sum()`: the distinct keys, sorted ascending by
`le` (pandas `sort=True`), each paired with the sum of `val` over the rows
having that key. -/
def sumBy {α : Type} [DecidableEq α] (le : α → α → Bool) (table : List SalesRecord)
    (key : SalesRecord → α) (val : SalesRecord → Rat) : List (α × Rat) :=
  (sortAsc le ((table.map key).dedup)).map
    (fun k => (k, ((table.filter (fun r => decide (key r = k))).map val).sum))

/-- `table.groupby(key)[val].sum().nlargest(n)` (src/main.py lines 38-41):
a stable descending-by-value sort of the key-sorted grouped sums, truncated
to `n` entries (pandas `nlargest`, `keep='first'`). -/
def topN (table : List SalesRecord) (key : SalesRecord → String)
    (val : SalesRecord → Rat) (n : Nat) : List (String × Rat) :=
  (sortAsc valGe (sumBy strLe table key val)).take n

/-- The filter block of src/main.py lines 64-69: two sequential equality
filters on `product_type` and `product_vendor`, each skipped when the
selection is the "Any" sentinel. -/
def filtered_data (table : List SalesRecord)
    (selected_product_type selected_vendor : String) : List SalesRecord :=
  let fd1 := if selected_product_type = "Any" then table
    else table.filter (fun r => decide (r.product_type = selected_product_type))
  if selected_vendor = "Any" then fd1
  else fd1.filter (fun r => decide (r.product_vendor = selected_vendor))

/-- The same filtering pattern over an arbitrary list of (column, value)
equality predicates: each predicate whose value is the "Any" sentinel is
skipped, the others narrow the table in sequence. -/
def applyFilters : List ((SalesRecord → String) × String) → List SalesRecord → List SalesRecord
  | [], table => table
  | p :: ps, table =>
      applyFilters ps
        (if p.2 = "Any" then table else table.filter (fun r => decide (p.1 r = p.2)))

/-- A record satisfies every active predicate (sentinel predicates are
always true). -/
def satisfiesAll (ps : List ((SalesRecord → String) × String)) (r : SalesRecord) : Bool :=
  ps.all (fun p => decide (p.2 = "Any") || decide (p.1 r = p.2))

/-- src/main.py line 118: per-product sales velocity, the grouped
`net_quantity` sum divided by the assumed 90-day window. -/
def sales_velocity (table : List SalesRecord) : List (String × Rat) :=
  (sumBy strLe table (fun r => r.product_title) (fun r => (r.net_quantity : Rat))).map
    (fun p => (p.1, p.2 / 90))

/-- One row of the Master Planning Schedule table (src/main.py lines 119-130). -/
structure MPSRow where
  product_title : String
  sales_velocity : Rat
  stocking_plan : Int
  predicted_monthly_demand : Rat
  status : String
deriving DecidableEq

/-- src/main.py lines 117-130: the MPS table.  Every row carries the same
user-entered scalar `plan`; predicted monthly demand is velocity × 30; the
status compares that demand against the shared plan value. -/
def mps_data (table : List SalesRecord) (plan : Int) : List MPSRow :=
  (sales_velocity table).map (fun p =>
    { product_title := p.1
      sales_velocity := p.2
      stocking_plan := plan
      predicted_monthly_demand := p.2 * 30
      status := if p.2 * 30 > (plan : Rat) then "Understocked" else "Well-stocked" })

/-- src/main.py line 97: the time trend of the selected product — filter to
the product, group by `day` (keys sorted ascending, i.e. chronologically),
sum `net_quantity`. -/
def product_trend_data (table : List SalesRecord) (selected_product : String) :
    List (Nat × Rat) :=
  sumBy natLeB (table.filter (fun r => decide (r.product_title = selected_product)))
    (fun r => r.day) (fun r => (r.net_quantity : Rat))

/-- Modelled from the spec: `overallMetrics(table)` (spec §4.3) is not
implemented in src/main.py (the repository's other near-duplicate variants
carry it); following the spec's words it returns the total sales sum, the
total quantity sum, and the title of the record with maximal
`net_quantity` (first occurrence on ties), failing with an EmptyInputError
when the table has zero rows. -/
def overallMetrics (table : List SalesRecord) : Except String (Rat × Int × String) :=
  match table with
  | [] => Except.error "EmptyInputError"
  | r :: rs =>
      Except.ok (((r :: rs).map (fun x => x.total_sales)).sum,
        ((r :: rs).map (fun x => x.net_quantity)).sum,
        (rs.foldl (fun best x => if x.net_quantity > best.net_quantity then x else best) r).product_title)

/-- The widget state driving one rerun of the script. -/
structure WidgetInputs where
  num_top_products : Nat
  by_total_sales : Bool
  selected_product_type : String
  selected_vendor : String
  selected_product : String
  stocking_plan : Int
deriving DecidableEq

/-- Everything one rerun hands to the presentation layer. -/
structure DashboardOutputs where
  monthly_sales : List (String × Rat)
  top_products : List (String × Rat)
  filtered : List SalesRecord
  product_sales : List (String × Rat)
  trend : List (Nat × Rat)
  mps : List MPSRow
deriving DecidableEq

/-- One full rerun of the script body (src/main.py lines 12-140) on an
uploaded table and the current widget state. -/
def dashboard (sales_data : List SalesRecord) (w : WidgetInputs) : DashboardOutputs :=
  { monthly_sales := sumBy strLe sales_data (fun r => r.month) (fun r => r.total_sales)
    top_products :=
      if w.by_total_sales then
        topN sales_data (fun r => r.product_title) (fun r => r.total_sales) w.num_top_products
      else
        topN sales_data (fun r => r.product_title) (fun r => (r.net_quantity : Rat)) w.num_top_products
    filtered := filtered_data sales_data w.selected_product_type w.selected_vendor
    product_sales :=
      sortAsc valGe
        (sumBy strLe (filtered_data sales_data w.selected_product_type w.selected_vendor)
          (fun r => r.product_title) (fun r => r.total_sales))
    trend := product_trend_data sales_data w.selected_product
    mps := mps_data sales_data w.stocking_plan }

/-- A convenient row constructor for concrete tables. -/
def mkRec (day : Nat) (month ttl ty vnd : String) (qty : Int) (sales : Rat) : SalesRecord :=
  { day := day, month := month, product_title := ttl, product_type := ty
    product_vendor := vnd, net_quantity := qty, total_sales := sales }

/-- A single product with 900 units sold: the spec's stocking example. -/
def ex900 : List SalesRecord := [mkRec 1 "2024-01" "A" "T" "V" 900 0]

/-- Two products, "B" first in the table, with equal total sales. -/
def exBA : List SalesRecord :=
  [mkRec 1 "2024-01" "B" "T" "V" 1 10, mkRec 2 "2024-01" "A" "T" "V" 1 10]

/-! ## Generic facts about the stable insertion sort -/

theorem mem_insertAsc {α : Type} (le : α → α → Bool) (x : α) (l : List α) (a : α) :
    a ∈ insertAsc le x l ↔ a = x ∨ a ∈ l := by
  induction l with
  | nil => simp [insertAsc]
  | cons b l ih =>
    by_cases h : le x b = true
    · simp [insertAsc, h]
    · simp only [insertAsc, if_neg h, List.mem_cons, ih]
      tauto

theorem perm_insertAsc {α : Type} (le : α → α → Bool) (x : α) (l : List α) :
    (insertAsc le x l).Perm (x :: l) := by
  induction l with
  | nil => simp [insertAsc]
  | cons b l ih =>
    by_cases h : le x b = true
    · simp [insertAsc, h]
    · simp only [insertAsc, if_neg h]
      exact (ih.cons b).trans (List.Perm.swap x b l)

theorem perm_sortAsc {α : Type} (le : α → α → Bool) (l : List α) :
    (sortAsc le l).Perm l := by
  induction l with
  | nil => simp [sortAsc]
  | cons a l ih =>
    exact (perm_insertAsc le a (sortAsc le l)).trans (ih.cons a)

theorem pairwise_insertAsc {α : Type} (le : α → α → Bool)
    (htot : ∀ a b, le a b = true ∨ le b a = true)
    (htr : ∀ a b c, le a b = true → le b c = true → le a c = true)
    (x : α) (l : List α) (hl : l.Pairwise (fun a b => le a b = true)) :
    (insertAsc le x l).Pairwise (fun a b => le a b = true) := by
  induction l with
  | nil => simp [insertAsc]
  | cons b l ih =>
    rcases List.pairwise_cons.mp hl with ⟨hb, hl2⟩
    by_cases h : le x b = true
    · rw [insertAsc, if_pos h]
      refine List.pairwise_cons.mpr ⟨?_, hl⟩
      intro c hc
      rcases List.mem_cons.mp hc with rfl | hc2
      · exact h
      · exact htr x b c h (hb c hc2)
    · rw [insertAsc, if_neg h]
      refine List.pairwise_cons.mpr ⟨?_, ih hl2⟩
      intro c hc
      rcases (mem_insertAsc le x l c).mp hc with h3 | hc2
      · rcases htot x b with hxb | hbx
        · exact absurd hxb h
        · rw [h3]
          exact hbx
      · exact hb c hc2

theorem pairwise_sortAsc {α : Type} (le : α → α → Bool)
    (htot : ∀ a b, le a b = true ∨ le b a = true)
    (htr : ∀ a b c, le a b = true → le b c = true → le a c = true)
    (l : List α) : (sortAsc le l).Pairwise (fun a b => le a b = true) := by
  induction l with
  | nil => simp [sortAsc]
  | cons a l ih => exact pairwise_insertAsc le htot htr a (sortAsc le l) ih

/-! ## The lexicographic string order -/

theorem charListLt_irrefl (as : List Char) : charListLt as as = false := by
  induction as with
  | nil => rfl
  | cons a as ih => simp [charListLt, lt_irrefl, ih]

theorem charListLt_trans (as bs cs : List Char) (h1 : charListLt as bs = true)
    (h2 : charListLt bs cs = true) : charListLt as cs = true := by
  induction as generalizing bs cs with
  | nil =>
    cases bs with
    | nil => exact absurd h1 (by simp [charListLt])
    | cons b bs =>
      cases cs with
      | nil => exact absurd h2 (by simp [charListLt])
      | cons c cs => simp [charListLt]
  | cons a as ih =>
    cases bs with
    | nil => exact absurd h1 (by simp [charListLt])
    | cons b bs =>
      cases cs with
      | nil => exact absurd h2 (by simp [charListLt])
      | cons c cs =>
        rw [charListLt] at h1 h2 ⊢
        by_cases hab : a < b
        · by_cases hbc : b < c
          · rw [if_pos (lt_trans hab hbc)]
          · rw [if_neg hbc] at h2
            by_cases hcb : c < b
            · rw [if_pos hcb] at h2
              simp at h2
            · have hbc2 : b = c := le_antisymm (le_of_not_lt hcb) (le_of_not_lt hbc)
              rw [if_pos (hbc2 ▸ hab)]
        · rw [if_neg hab] at h1
          by_cases hba : b < a
          · rw [if_pos hba] at h1
            simp at h1
          · have hab2 : a = b := le_antisymm (le_of_not_lt hba) (le_of_not_lt hab)
            subst hab2
            rw [if_neg (lt_irrefl a)] at h1
            by_cases hbc : a < c
            · rw [if_pos hbc]
            · rw [if_neg hbc] at h2 ⊢
              by_cases hcb : c < a
              · rw [if_pos hcb] at h2
                simp at h2
              · rw [if_neg hcb] at h2 ⊢
                exact ih bs cs h1 h2

theorem charListLt_trichotomy (as bs : List Char) :
    charListLt as bs = true ∨ as = bs ∨ charListLt bs as = true := by
  induction as generalizing bs with
  | nil =>
    cases bs with
    | nil => exact Or.inr (Or.inl rfl)
    | cons b bs => exact Or.inl (by simp [charListLt])
  | cons a as ih =>
    cases bs with
    | nil => exact Or.inr (Or.inr (by simp [charListLt]))
    | cons b bs =>
      rcases lt_trichotomy a b with hab | hab | hab
      · exact Or.inl (by rw [charListLt, if_pos hab])
      · subst hab
        rcases ih bs with h | h | h
        · exact Or.inl (by rw [charListLt, if_neg (lt_irrefl a), if_neg (lt_irrefl a)]; exact h)
        · exact Or.inr (Or.inl (by rw [h]))
        · exact Or.inr (Or.inr (by rw [charListLt, if_neg (lt_irrefl a), if_neg (lt_irrefl a)]; exact h))
      · exact Or.inr (Or.inr (by rw [charListLt, if_pos hab]))

theorem charListLt_asymm (as bs : List Char) (h : charListLt as bs = true) :
    charListLt bs as = false := by
  by_contra hc
  have h2 : charListLt bs as = true := by
    cases hcase : charListLt bs as
    · exact absurd hcase hc
    · rfl
  have := charListLt_trans as bs as h h2
  rw [charListLt_irrefl] at this
  exact absurd this (by simp)

theorem string_eq_of_data_eq (a b : String) (h : a.data = b.data) : a = b := by
  cases a
  cases b
  exact congrArg String.mk h

theorem strLe_total (a b : String) : strLe a b = true ∨ strLe b a = true := by
  rw [strLe, strLe]
  by_cases h : charListLt b.data a.data = true
  · right
    rw [strLt, charListLt_asymm b.data a.data h]
    rfl
  · left
    rw [strLt]
    cases hcase : charListLt b.data a.data
    · rfl
    · exact absurd hcase h

theorem strLe_trans (a b c : String) (h1 : strLe a b = true) (h2 : strLe b c = true) :
    strLe a c = true := by
  rw [strLe, strLt, Bool.not_eq_true'] at h1 h2 ⊢
  by_contra hc
  have hca : charListLt c.data a.data = true := by
    cases hcase : charListLt c.data a.data
    · exact absurd hcase hc
    · rfl
  rcases charListLt_trichotomy a.data b.data with hab | hab | hab
  · have := charListLt_trans c.data a.data b.data hca hab
    rw [h2] at this
    exact absurd this (by simp)
  · rw [hab] at hca
    rw [hca] at h2
    exact absurd h2 (by simp)
  · rw [hab] at h1
    exact absurd h1 (by simp)

theorem strLt_of_strLe_of_ne (a b : String) (h : strLe a b = true) (hne : a ≠ b) :
    strLt a b = true := by
  rcases charListLt_trichotomy a.data b.data with hab | hab | hab
  · exact hab
  · exact absurd (string_eq_of_data_eq a b hab) hne
  · rw [strLe, strLt, hab] at h
    exact absurd h (by simp)

/-! ## Order facts used by `topN` -/

theorem valGe_total {α : Type} (p q : α × Rat) : valGe p q = true ∨ valGe q p = true := by
  rw [valGe, valGe, decide_eq_true_iff, decide_eq_true_iff]
  exact le_total q.2 p.2

theorem valGe_trans {α : Type} (p q r : α × Rat) (h1 : valGe p q = true)
    (h2 : valGe q r = true) : valGe p r = true := by
  rw [valGe, decide_eq_true_iff] at h1 h2 ⊢
  exact le_trans h2 h1

/-- The order `topN` actually realises on ties: strictly larger value
first, equal values resolved by strictly smaller (lexicographic) key
first. -/
def rlex (p q : String × Rat) : Prop :=
  q.2 < p.2 ∨ (p.2 = q.2 ∧ strLt p.1 q.1 = true)

theorem rlex_snd_le (p q : String × Rat) (h : rlex p q) : q.2 ≤ p.2 := by
  rcases h with h | ⟨h, _⟩
  · exact le_of_lt h
  · exact le_of_eq h.symm

theorem pairwise_rlex_insertAsc (p : String × Rat) (l : List (String × Rat))
    (hl : l.Pairwise rlex) (hk : ∀ q ∈ l, strLt p.1 q.1 = true) :
    (insertAsc valGe p l).Pairwise rlex := by
  induction l with
  | nil => simp [insertAsc]
  | cons q l ih =>
    rcases List.pairwise_cons.mp hl with ⟨hq, hl2⟩
    by_cases h : valGe p q = true
    · rw [insertAsc, if_pos h]
      have hq2 : q.2 ≤ p.2 := by
        rw [valGe, decide_eq_true_iff] at h
        exact h
      refine List.pairwise_cons.mpr ⟨?_, hl⟩
      intro b hb
      have hb2 : b.2 ≤ p.2 := by
        rcases List.mem_cons.mp hb with rfl | hb3
        · exact hq2
        · exact le_trans (rlex_snd_le q b (hq b hb3)) hq2
      rcases lt_or_eq_of_le hb2 with hlt | heq
      · exact Or.inl hlt
      · refine Or.inr ⟨heq.symm, ?_⟩
        rcases List.mem_cons.mp hb with h4 | hb3
        · rw [h4]
          exact hk q (List.mem_cons_self q l)
        · exact hk b (List.mem_cons_of_mem q hb3)
    · rw [insertAsc, if_neg h]
      have hlt : p.2 < q.2 := by
        rw [valGe, decide_eq_true_iff] at h
        exact lt_of_not_le h
      refine List.pairwise_cons.mpr ⟨?_, ih hl2 (fun b hb => hk b (List.mem_cons_of_mem q hb))⟩
      intro b hb
      rcases (mem_insertAsc valGe p l b).mp hb with h3 | hb2
      · rw [h3]
        exact Or.inl hlt
      · exact hq b hb2

theorem pairwise_rlex_sortAsc (l : List (String × Rat))
    (hkeys : l.Pairwise (fun p q => strLt p.1 q.1 = true)) :
    (sortAsc valGe l).Pairwise rlex := by
  induction l with
  | nil => simp [sortAsc]
  | cons p l ih =>
    rcases List.pairwise_cons.mp hkeys with ⟨hp, hk2⟩
    refine pairwise_rlex_insertAsc p (sortAsc valGe l) (ih hk2) ?_
    intro q hq
    exact hp q ((perm_sortAsc valGe l).mem_iff.mp hq)

/-- The grouped sums produced by `sumBy` over the lexicographic string
order carry pairwise strictly ascending keys. -/
theorem sumBy_keys_strict (table : List SalesRecord) (key : SalesRecord → String)
    (val : SalesRecord → Rat) :
    (sumBy strLe table key val).Pairwise (fun p q => strLt p.1 q.1 = true) := by
  rw [sumBy, List.pairwise_map]
  have hsorted := pairwise_sortAsc strLe strLe_total strLe_trans ((table.map key).dedup)
  have hnd : (sortAsc strLe ((table.map key).dedup)).Nodup :=
    (perm_sortAsc strLe ((table.map key).dedup)).nodup_iff.mpr (List.nodup_dedup _)
  exact (hsorted.and hnd).imp (fun h => strLt_of_strLe_of_ne _ _ h.1 h.2)

/-! ## Summation helpers -/

theorem sum_filter_split {β : Type} (f : β → Rat) (p : β → Bool) (l : List β) :
    ((l.filter p).map f).sum + ((l.filter (fun b => ! p b)).map f).sum = (l.map f).sum := by
  induction l with
  | nil => simp
  | cons a l ih =>
    by_cases h : p a = true
    · simp [List.filter_cons, h]
      linarith [ih]
    · have h2 : p a = false := by
        cases hcase : p a
        · rfl
        · exact absurd hcase h
      simp [List.filter_cons, h2]
      linarith [ih]

theorem sum_groupSums {α : Type} [DecidableEq α] (key : SalesRecord → α)
    (val : SalesRecord → Rat) :
    ∀ (ks : List α) (l : List SalesRecord), ks.Nodup → (∀ r ∈ l, key r ∈ ks) →
      (ks.map (fun k => ((l.filter (fun r => decide (key r = k))).map val).sum)).sum
        = (l.map val).sum := by
  intro ks
  induction ks with
  | nil =>
    intro l _ hcov
    have hl : l = [] := by
      cases l with
      | nil => rfl
      | cons r t => exact absurd (hcov r (List.mem_cons_self r t)) (List.not_mem_nil _)
    rw [hl]
    simp
  | cons k ks ih =>
    intro l hnd hcov
    rcases List.pairwise_cons.mp hnd with ⟨hk, hnd2⟩
    have hstep : ∀ k2 ∈ ks,
        ((l.filter (fun r => decide (key r = k2))).map val).sum
          = (((l.filter (fun r => ! decide (key r = k))).filter
              (fun r => decide (key r = k2))).map val).sum := by
      intro k2 hk2
      rw [List.filter_filter]
      congr 1
      congr 1
      apply List.filter_congr
      intro r _
      by_cases h : key r = k2
      · have hne : ¬ k2 = k := fun hcontra => (hk k2 hk2) hcontra.symm
        simp [h, hne]
      · simp [h]
    have hcov2 : ∀ r ∈ l.filter (fun r => ! decide (key r = k)), key r ∈ ks := by
      intro r hr
      rcases List.mem_filter.mp hr with ⟨hrl, hcond⟩
      have : key r ≠ k := by
        intro hcontra
        rw [hcontra] at hcond
        simp at hcond
      rcases List.mem_cons.mp (hcov r hrl) with h | h
      · exact absurd h this
      · exact h
    rw [List.map_cons, List.sum_cons,
      List.map_congr_left hstep,
      ih (l.filter (fun r => ! decide (key r = k))) hnd2 hcov2]
    exact sum_filter_split val (fun r => decide (key r = k)) l

/-! ## The filter layer -/

theorem applyFilters_eq_filter (ps : List ((SalesRecord → String) × String))
    (table : List SalesRecord) :
    applyFilters ps table = table.filter (satisfiesAll ps) := by
  induction ps generalizing table with
  | nil =>
    rw [applyFilters]
    have h : satisfiesAll [] = fun _ => true := by
      funext r
      rfl
    rw [h, List.filter_true]
  | cons p ps ih =>
    rw [applyFilters, ih]
    by_cases h : p.2 = "Any"
    · rw [if_pos h]
      apply List.filter_congr
      intro r _
      simp [satisfiesAll, h]
    · rw [if_neg h, List.filter_filter]
      apply List.filter_congr
      intro r _
      simp [satisfiesAll, h, Bool.and_comm]

theorem applyFilters_sublist (ps : List ((SalesRecord → String) × String))
    (table : List SalesRecord) : (applyFilters ps table).Sublist table := by
  rw [applyFilters_eq_filter]
  exact List.filter_sublist table

/-- The two hard-coded selections of src/main.py lines 64-69 are exactly
`applyFilters` on the predicate list [(product_type, selection),
(product_vendor, selection)]. -/
theorem filtered_data_eq_applyFilters (table : List SalesRecord) (pt v : String) :
    filtered_data table pt v
      = applyFilters [(fun r => r.product_type, pt), (fun r => r.product_vendor, v)] table := by
  rfl

/-- C7: `filter` returns exactly the subsequence of records satisfying
every active predicate (sentinel "Any" predicates are skipped), preserving
the original relative order — it is the order-preserving `List.filter` of
the conjunction of the active equality predicates, and a sublist of the
input. -/
theorem filter_matches_active_predicates (table : List SalesRecord)
    (ps : List ((SalesRecord → String) × String)) :
    applyFilters ps table = table.filter (satisfiesAll ps)
      ∧ (applyFilters ps table).Sublist table :=
  ⟨applyFilters_eq_filter ps table, applyFilters_sublist ps table⟩

theorem filter_matches_active_predicates_witness :
    applyFilters [(fun r => r.product_type, "T")] exBA
        = exBA.filter (satisfiesAll [(fun r => r.product_type, "T")])
      ∧ (applyFilters [(fun r => r.product_type, "T")] exBA).Sublist exBA :=
  filter_matches_active_predicates exBA [(fun r => r.product_type, "T")]

/-- The all-sentinel predicate list used to witness C5. -/
def anyPreds : List ((SalesRecord → String) × String) :=
  [(fun r => r.product_type, "Any"), (fun r => r.product_vendor, "Any")]

/-- C5: filtering with every predicate set to the "Any" sentinel returns
the original table unchanged, in content and order. -/
theorem filter_all_sentinel_id (table : List SalesRecord)
    (ps : List ((SalesRecord → String) × String))
    (h : ∀ p ∈ ps, p.2 = "Any") : applyFilters ps table = table := by
  induction ps generalizing table with
  | nil => rfl
  | cons p ps ih =>
    rw [applyFilters, if_pos (h p (List.mem_cons_self p ps))]
    exact ih table (fun q hq => h q (List.mem_cons_of_mem p hq))

theorem filter_all_sentinel_id_witness :
    (∀ p ∈ anyPreds, p.2 = "Any") ∧ applyFilters anyPreds exBA = exBA := by
  have h : ∀ p ∈ anyPreds, p.2 = "Any" := by
    intro p hp
    rcases List.mem_cons.mp hp with h1 | hp2
    · rw [h1]
    · rcases List.mem_cons.mp hp2 with h2 | h3
      · rw [h2]
      · exact absurd h3 (List.not_mem_nil p)
  exact ⟨h, filter_all_sentinel_id exBA anyPreds h⟩

/-- C6: `filter` is idempotent — filtering an already-filtered table with
the same predicates returns the same result. -/
theorem filter_idempotent (table : List SalesRecord)
    (ps : List ((SalesRecord → String) × String)) :
    applyFilters ps (applyFilters ps table) = applyFilters ps table := by
  rw [applyFilters_eq_filter, applyFilters_eq_filter, List.filter_filter]
  simp

theorem filter_idempotent_witness :
    applyFilters anyPreds (applyFilters anyPreds exBA) = applyFilters anyPreds exBA :=
  filter_idempotent exBA anyPreds

/-- C8: on the empty table, `overallMetrics` fails with an EmptyInputError,
while `topN` returns the empty sequence rather than an error. -/
theorem empty_table_metrics_vs_topN :
    overallMetrics [] = Except.error "EmptyInputError"
      ∧ ∀ (key : SalesRecord → String) (val : SalesRecord → Rat) (n : Nat),
          topN [] key val n = [] := by
  refine ⟨rfl, ?_⟩
  intro key val n
  simp [topN, sumBy, sortAsc]

theorem empty_table_metrics_vs_topN_witness :
    overallMetrics [] = Except.error "EmptyInputError"
      ∧ topN [] (fun r => r.product_title) (fun r => r.total_sales) 10 = [] :=
  ⟨empty_table_metrics_vs_topN.1,
    empty_table_metrics_vs_topN.2 (fun r => r.product_title) (fun r => r.total_sales) 10⟩

/-- A fixed widget state used by witnesses. -/
def wEx : WidgetInputs :=
  { num_top_products := 5, by_total_sales := true, selected_product_type := "Any"
    selected_vendor := "Any", selected_product := "A", stocking_plan := 100 }

/-- C9: one rerun of the pipeline (aggregation, filter, metrics, trend and
stocking heuristic) is a pure, deterministic function of the uploaded
table and the widget inputs: equal inputs give equal outputs. -/
theorem pipeline_deterministic (t1 t2 : List SalesRecord) (w1 w2 : WidgetInputs)
    (ht : t1 = t2) (hw : w1 = w2) :
    dashboard t1 w1 = dashboard t2 w2 ∧ overallMetrics t1 = overallMetrics t2 := by
  subst ht
  subst hw
  exact ⟨rfl, rfl⟩

theorem pipeline_deterministic_witness :
    exBA = exBA ∧ wEx = wEx
      ∧ (dashboard exBA wEx = dashboard exBA wEx
          ∧ overallMetrics exBA = overallMetrics exBA) :=
  ⟨rfl, rfl, pipeline_deterministic exBA exBA wEx wEx rfl rfl⟩

/-- C10: the time-trend series and the stocking (MPS) table are computed
from the full uploaded table, not the filtered one: changing the
product-type and vendor selections leaves both outputs unchanged. -/
theorem trend_and_mps_ignore_filters (table : List SalesRecord) (w : WidgetInputs)
    (pt v : String) :
    (dashboard table { w with selected_product_type := pt, selected_vendor := v }).trend
        = (dashboard table w).trend
      ∧ (dashboard table { w with selected_product_type := pt, selected_vendor := v }).mps
        = (dashboard table w).mps :=
  ⟨rfl, rfl⟩

theorem trend_and_mps_ignore_filters_witness :
    (dashboard exBA { wEx with selected_product_type := "T", selected_vendor := "V" }).trend
        = (dashboard exBA wEx).trend
      ∧ (dashboard exBA { wEx with selected_product_type := "T", selected_vendor := "V" }).mps
        = (dashboard exBA wEx).mps :=
  trend_and_mps_ignore_filters exBA wEx "T" "V"

/-- C2: for every table and grouping key, the per-group values produced by
`sumBy` over the `total_sales` column sum to exactly the grand total of
`total_sales` over the whole table. -/
theorem sumBy_partitions_total {α : Type} [DecidableEq α] (le : α → α → Bool)
    (table : List SalesRecord) (key : SalesRecord → α) :
    ((sumBy le table key (fun r => r.total_sales)).map Prod.snd).sum
      = (table.map (fun r => r.total_sales)).sum := by
  rw [sumBy, List.map_map]
  have h1 : (Prod.snd ∘ fun k =>
      (k, ((table.filter (fun r => decide (key r = k))).map (fun r => r.total_sales)).sum))
        = fun k => ((table.filter (fun r => decide (key r = k))).map
            (fun r => r.total_sales)).sum := rfl
  rw [h1, ((perm_sortAsc le ((table.map key).dedup)).map _).sum_eq]
  exact sum_groupSums key (fun r => r.total_sales) ((table.map key).dedup) table
    (List.nodup_dedup _) (fun r hr => List.mem_dedup.mpr (List.mem_map_of_mem key hr))

theorem sumBy_partitions_total_witness :
    ((sumBy strLe exBA (fun r => r.product_title) (fun r => r.total_sales)).map
        Prod.snd).sum
      = (exBA.map (fun r => r.total_sales)).sum :=
  sumBy_partitions_total strLe exBA (fun r => r.product_title)

/-- C1: for every table and user-entered scalar plan value, each row of the
stocking (MPS) table has velocity = (Σ net_quantity of its product) / 90,
predicted demand = velocity × 30, the shared scalar plan, and status
"Understocked" exactly when the predicted demand exceeds that single plan
value (else "Well-stocked"); concretely a product with Σ net_quantity 900
gets velocity 10/day and predicted demand 300: "Understocked" under plan
100, "Well-stocked" under plan 400. -/
theorem stocking_plan_formula :
    (∀ (table : List SalesRecord) (plan : Int) (row : MPSRow), row ∈ mps_data table plan →
        row.sales_velocity
            = ((table.filter (fun r => decide (r.product_title = row.product_title))).map
                (fun r => (r.net_quantity : Rat))).sum / 90
          ∧ row.predicted_monthly_demand = row.sales_velocity * 30
          ∧ row.stocking_plan = plan
          ∧ (row.status = "Understocked" ↔ row.predicted_monthly_demand > (plan : Rat))
          ∧ (row.status = "Understocked" ∨ row.status = "Well-stocked"))
      ∧ mps_data ex900 100
          = [{ product_title := "A", sales_velocity := 10, stocking_plan := 100,
               predicted_monthly_demand := 300, status := "Understocked" }]
      ∧ mps_data ex900 400
          = [{ product_title := "A", sales_velocity := 10, stocking_plan := 400,
               predicted_monthly_demand := 300, status := "Well-stocked" }] := by
  refine ⟨?_, ?_, ?_⟩
  · intro table plan row hrow
    rw [mps_data, List.mem_map] at hrow
    obtain ⟨p, hp, hpe⟩ := hrow
    rw [sales_velocity, List.mem_map] at hp
    obtain ⟨q, hq, hqe⟩ := hp
    rw [sumBy, List.mem_map] at hq
    obtain ⟨k, hk, hke⟩ := hq
    subst hpe
    subst hqe
    subst hke
    dsimp only
    refine ⟨rfl, rfl, rfl, ?_, ?_⟩
    · split_ifs with hcond
      · simp [hcond]
      · simp [hcond]
    · split_ifs
      · exact Or.inl rfl
      · exact Or.inr rfl
  · norm_num [mps_data, sales_velocity, sumBy, sortAsc, insertAsc, ex900, mkRec]
  · norm_num [mps_data, sales_velocity, sumBy, sortAsc, insertAsc, ex900, mkRec]

/-- The single MPS row the spec's stocking example produces under plan 100. -/
def mpsRowEx : MPSRow :=
  { product_title := "A", sales_velocity := 10, stocking_plan := 100
    predicted_monthly_demand := 300, status := "Understocked" }

theorem stocking_plan_formula_witness :
    mpsRowEx ∈ mps_data ex900 100
      ∧ (mpsRowEx.sales_velocity
            = ((ex900.filter (fun r => decide (r.product_title = mpsRowEx.product_title))).map
                (fun r => (r.net_quantity : Rat))).sum / 90
          ∧ mpsRowEx.predicted_monthly_demand = mpsRowEx.sales_velocity * 30
          ∧ mpsRowEx.stocking_plan = 100
          ∧ (mpsRowEx.status = "Understocked"
              ↔ mpsRowEx.predicted_monthly_demand > ((100 : Int) : Rat))
          ∧ (mpsRowEx.status = "Understocked" ∨ mpsRowEx.status = "Well-stocked")) := by
  have hmem : mpsRowEx ∈ mps_data ex900 100 := by
    norm_num [mps_data, sales_velocity, sumBy, sortAsc, insertAsc, ex900, mkRec, mpsRowEx]
  exact ⟨hmem, stocking_plan_formula.1 ex900 100 mpsRowEx hmem⟩

/-- C3 (counterexample): with two groups of equal summed value the values
returned by `topN` are NOT strictly descending — on `exBA` (titles "B" and
"A", both with total 10) `topN` returns values [10, 10]. -/
theorem topN_not_strictly_descending :
    ¬ (((topN exBA (fun r => r.product_title) (fun r => r.total_sales) 2).map
        Prod.snd).Pairwise (fun a b => b < a)) := by
  have h : topN exBA (fun r => r.product_title) (fun r => r.total_sales) 2
      = [("A", 10), ("B", 10)] := by
    norm_num [topN, sumBy, sortAsc, insertAsc, valGe, exBA, mkRec,
      show strLe "B" "A" = false from by decide,
      show ¬ (("B":String) = "A") from by decide,
      show ¬ (("A":String) = "B") from by decide]
  rw [h]
  simp

/-- C3 (amended): `topN(table, key, col, n)` returns at most n entries,
weakly descending by value (descending with ties allowed), and every
returned (group, value) pair also appears in `sumBy(table, key, col)`. -/
theorem topN_weakly_descending (table : List SalesRecord) (key : SalesRecord → String)
    (val : SalesRecord → Rat) (n : Nat) :
    (topN table key val n).length ≤ n
      ∧ ((topN table key val n).map Prod.snd).Pairwise (fun a b => b ≤ a)
      ∧ ∀ p ∈ topN table key val n, p ∈ sumBy strLe table key val := by
  have hrlex : (sortAsc valGe (sumBy strLe table key val)).Pairwise rlex :=
    pairwise_rlex_sortAsc _ (sumBy_keys_strict table key val)
  refine ⟨?_, ?_, ?_⟩
  · rw [topN]
    exact List.length_take_le n _
  · rw [topN]
    exact List.pairwise_map.mpr
      ((hrlex.imp (fun h => rlex_snd_le _ _ h)).sublist (List.take_sublist n _))
  · intro p hp
    rw [topN] at hp
    exact (perm_sortAsc valGe _).subset ((List.take_sublist n _).subset hp)

theorem topN_weakly_descending_witness :
    (("A":String), (10:Rat)) ∈ topN exBA (fun r => r.product_title) (fun r => r.total_sales) 1
      ∧ (("A":String), (10:Rat)) ∈ sumBy strLe exBA (fun r => r.product_title)
          (fun r => r.total_sales) := by
  have h1 : topN exBA (fun r => r.product_title) (fun r => r.total_sales) 1
      = [("A", 10)] := by
    norm_num [topN, sumBy, sortAsc, insertAsc, valGe, exBA, mkRec,
      show strLe "B" "A" = false from by decide,
      show ¬ (("B":String) = "A") from by decide,
      show ¬ (("A":String) = "B") from by decide]
  have hmem : (("A":String), (10:Rat)) ∈ topN exBA (fun r => r.product_title)
      (fun r => r.total_sales) 1 := by
    rw [h1]
    decide
  exact ⟨hmem,
    (topN_weakly_descending exBA (fun r => r.product_title) (fun r => r.total_sales) 1).2.2
      _ hmem⟩

/-- C4 (counterexample): ties are NOT broken by input order.  In `exBA` the
group "B" appears first in the table and has the same summed value as "A",
yet `topN` lists "A" first (pandas sorts group keys before `nlargest`
resolves ties by position). -/
theorem topN_tie_not_input_order :
    exBA.map (fun r => r.product_title) = ["B", "A"]
      ∧ sumBy strLe exBA (fun r => r.product_title) (fun r => r.total_sales)
          = [("A", 10), ("B", 10)]
      ∧ (topN exBA (fun r => r.product_title) (fun r => r.total_sales) 2).map Prod.fst
          = ["A", "B"]
      ∧ (topN exBA (fun r => r.product_title) (fun r => r.total_sales) 2).map Prod.fst
          ≠ ["B", "A"] := by
  have h : topN exBA (fun r => r.product_title) (fun r => r.total_sales) 2
      = [("A", 10), ("B", 10)] := by
    norm_num [topN, sumBy, sortAsc, insertAsc, valGe, exBA, mkRec,
      show strLe "B" "A" = false from by decide,
      show ¬ (("B":String) = "A") from by decide,
      show ¬ (("A":String) = "B") from by decide]
  have h2 : sumBy strLe exBA (fun r => r.product_title) (fun r => r.total_sales)
      = [("A", 10), ("B", 10)] := by
    norm_num [sumBy, sortAsc, insertAsc, exBA, mkRec,
      show strLe "B" "A" = false from by decide,
      show ¬ (("B":String) = "A") from by decide,
      show ¬ (("A":String) = "B") from by decide]
  refine ⟨by decide, h2, ?_, ?_⟩
  · rw [h]
    rfl
  · rw [h]
    decide

/-- C4 (amended): `topN` returns the n largest grouped sums in descending
order, and ties between equal summed values are broken by ascending
(lexicographic) group key — the order pandas sorts group keys into — not
by input order; every grouped sum not returned is at most every returned
value. -/
theorem topN_ties_by_key_order (table : List SalesRecord) (key : SalesRecord → String)
    (val : SalesRecord → Rat) (n : Nat) :
    (topN table key val n).Pairwise rlex
      ∧ ∀ q ∈ sumBy strLe table key val, q ∉ topN table key val n →
          ∀ p ∈ topN table key val n, q.2 ≤ p.2 := by
  have hrlex : (sortAsc valGe (sumBy strLe table key val)).Pairwise rlex :=
    pairwise_rlex_sortAsc _ (sumBy_keys_strict table key val)
  constructor
  · rw [topN]
    exact hrlex.sublist (List.take_sublist n _)
  · intro q hq hqn p hp
    have hqs : q ∈ sortAsc valGe (sumBy strLe table key val) :=
      (perm_sortAsc valGe _).mem_iff.mpr hq
    have hval : (sortAsc valGe (sumBy strLe table key val)).Pairwise
        (fun a b => b.2 ≤ a.2) := hrlex.imp (fun h => rlex_snd_le _ _ h)
    have hsplit := List.take_append_drop n (sortAsc valGe (sumBy strLe table key val))
    have hval2 : ((sortAsc valGe (sumBy strLe table key val)).take n
        ++ (sortAsc valGe (sumBy strLe table key val)).drop n).Pairwise
          (fun a b => b.2 ≤ a.2) := by
      rw [hsplit]
      exact hval
    have hcross := List.pairwise_append.mp hval2
    have hqd : q ∈ (sortAsc valGe (sumBy strLe table key val)).drop n := by
      have hq2 : q ∈ (sortAsc valGe (sumBy strLe table key val)).take n
          ++ (sortAsc valGe (sumBy strLe table key val)).drop n := by
        rw [hsplit]
        exact hqs
      rcases List.mem_append.mp hq2 with h | h
      · rw [topN] at hqn
        exact absurd h hqn
      · exact h
    rw [topN] at hp
    exact hcross.2.2 p hp q hqd

theorem topN_ties_by_key_order_witness :
    (("B":String), (10:Rat)) ∈ sumBy strLe exBA (fun r => r.product_title)
        (fun r => r.total_sales)
      ∧ (("B":String), (10:Rat)) ∉ topN exBA (fun r => r.product_title)
          (fun r => r.total_sales) 1
      ∧ (("A":String), (10:Rat)) ∈ topN exBA (fun r => r.product_title)
          (fun r => r.total_sales) 1
      ∧ ((("B":String), (10:Rat)) : String × Rat).2
          ≤ ((("A":String), (10:Rat)) : String × Rat).2 := by
  have h2 : sumBy strLe exBA (fun r => r.product_title) (fun r => r.total_sales)
      = [("A", 10), ("B", 10)] := by
    norm_num [sumBy, sortAsc, insertAsc, exBA, mkRec,
      show strLe "B" "A" = false from by decide,
      show ¬ (("B":String) = "A") from by decide,
      show ¬ (("A":String) = "B") from by decide]
  have h1 : topN exBA (fun r => r.product_title) (fun r => r.total_sales) 1
      = [("A", 10)] := by
    norm_num [topN, sumBy, sortAsc, insertAsc, valGe, exBA, mkRec,
      show strLe "B" "A" = false from by decide,
      show ¬ (("B":String) = "A") from by decide,
      show ¬ (("A":String) = "B") from by decide]
  have hmq : (("B":String), (10:Rat)) ∈ sumBy strLe exBA (fun r => r.product_title)
      (fun r => r.total_sales) := by
    rw [h2]
    decide
  have hnq : (("B":String), (10:Rat)) ∉ topN exBA (fun r => r.product_title)
      (fun r => r.total_sales) 1 := by
    rw [h1]
    decide
  have hmp : (("A":String), (10:Rat)) ∈ topN exBA (fun r => r.product_title)
      (fun r => r.total_sales) 1 := by
    rw [h1]
    decide
  exact ⟨hmq, hnq, hmp,
    (topN_ties_by_key_order exBA (fun r => r.product_title) (fun r => r.total_sales) 1).2
      (("B":String), (10:Rat)) hmq hnq (("A":String), (10:Rat)) hmp⟩
